import Mathlib

/-!
Shallow embedding of the Linux service supervisor
(src/plugins/platform/linux/LinuxServiceCore.cpp) of the veyon repository.

Strings (QString) are modelled as lists of characters, QProcessEnvironment
and the QMap of server processes as association lists, and the external
collaborators (systemd-logind property queries, the process table, the
configuration) as an explicit `World` of oracles.  Side effects (remote
queries, worker launch and termination, session registry open/close) are
recorded in an event trace.
-/

namespace Veyon

/-- QString, modelled as a list of characters. -/
abbrev Str := List Char

/-- Converts a Lean string literal into the character-list model. -/
def str (s : String) : Str := s.toList

/-- One row of the process-table snapshot delivered by readproc:
process id (tid), parent process id (ppid) and the raw environment block
(null when the environment is unreadable). -/
structure ProcEntry where
  tid : Int
  ppid : Int
  environ : Option (List Str)

/-- Parsing of one raw environment entry, from getSessionEnvironment:
QString(procInfo->environ[i]).split('=') followed by env.first() for the
key and env.mid(1).join('=') for the value. -/
def parseEntry (s : Str) : Str × Str :=
  let env := s.splitOn '='
  (env.headI, List.intercalate ['='] env.tail)

/-- QProcessEnvironment::insert: replaces the binding of the key when
present, otherwise adds it. -/
def envInsert : List (Str × Str) → Str → Str → List (Str × Str)
  | [], k, v => [(k, v)]
  | e :: rest, k, v => if e.1 = k then (k, v) :: rest else e :: envInsert rest k v

/-- QProcessEnvironment::value: the value bound to the key, or the empty
string when the key is absent. -/
def envValue (env : List (Str × Str)) (k : Str) : Str :=
  match env.find? (fun e => decide (e.1 = k)) with
  | some e => e.2
  | none => []

/-- The inner loop of getSessionEnvironment over one process's environment
block: each raw entry is parsed and inserted into the accumulated
environment. -/
def mergeEnvironBlock (env : List (Str × Str)) (block : List Str) : List (Str × Str) :=
  block.foldl (fun acc s => envInsert acc (parseEntry s).1 (parseEntry s).2) env

/-- One iteration of the readproc loop in getSessionEnvironment: when the
process's parent is the session leader or is already in the collected pid
list, and its environment block is non-null, its variables are merged and
its own pid appended to the pid list. -/
def envScanStep (sessionLeaderPid : Int) (acc : List (Str × Str) × List Int)
    (procInfo : ProcEntry) : List (Str × Str) × List Int :=
  match procInfo.environ with
  | some block =>
    if procInfo.ppid = sessionLeaderPid ∨ procInfo.ppid ∈ acc.2 then
      (mergeEnvironBlock acc.1 block, acc.2 ++ [procInfo.tid])
    else acc
  | none => acc

/-- The full readproc loop of getSessionEnvironment: accumulated environment
together with the collected pid list (the growing root set). -/
def envScan (procTable : List ProcEntry) (sessionLeaderPid : Int) :
    List (Str × Str) × List Int :=
  procTable.foldl (envScanStep sessionLeaderPid) ([], [])

/-- LinuxServiceCore::getSessionEnvironment: a single forward pass over the
process-table snapshot with a growing root set seeded by the session leader
pid. -/
def getSessionEnvironment (procTable : List ProcEntry) (sessionLeaderPid : Int) :
    List (Str × Str) :=
  (envScan procTable sessionLeaderPid).1

/-- Numeric value of a decimal digit character. -/
def charToDigit (c : Char) : Nat := c.toNat - '0'.toNat

/-- QString::number on a non-negative integer: its decimal digit string,
most significant digit first. -/
def numberStr (n : Nat) : Str :=
  if n = 0 then ['0'] else ((Nat.digits 10 n).map Nat.digitChar).reverse

/-- QString::toInt on a decimal digit string: the value of its digits in
base 10 (digits are little-endian for Nat.ofDigits, hence the reverse). -/
def toIntStr (s : Str) : Nat :=
  Nat.ofDigits 10 ((s.map charToDigit).reverse)

/-- Observable side effects of the supervisor: the logind property queries,
the session registry open/close calls, and worker process launch and
termination requests.  Process handles are numbered by a counter in the
core state. -/
inductive Event where
  | queryDisplay (sessionPath : Str)
  | queryLeader (sessionPath : Str)
  | querySeat (sessionPath : Str)
  | openSession (sessionPath sessionDisplay seatPath : Str) (sessionId : Nat)
  | closeSession (sessionId : Nat)
  | launch (processHandle : Nat) (filePath : Str)
  | terminate (processHandle : Nat)
deriving DecidableEq

/-- The external collaborators, as oracles: the logind per-session property
answers (Display as a string, empty when absent or non-graphical; Leader as
a pid; the seat path), the process-table snapshot seen by readproc, the
multi-session configuration flag and the worker executable path. -/
structure World where
  display : Str → Str
  leader : Str → Int
  seatPath : Str → Str
  procTable : List ProcEntry
  multiSession : Bool
  serverFilePath : Str

/-- A launched QProcess as recorded in m_serverProcesses: its handle and the
process environment it was started with. -/
structure WorkerProcess where
  handle : Nat
  processEnvironment : List (Str × Str)
deriving DecidableEq

/-- LinuxServiceCore state: the m_serverProcesses map (association list from
session path to worker process) plus counters supplying fresh process
handles and fresh registry session ids. -/
structure CoreState where
  serverProcesses : List (Str × WorkerProcess)
  nextHandle : Nat
  nextSessionId : Nat
deriving DecidableEq

/-- The state at service construction: empty map, counters at zero. -/
def initialState : CoreState := ⟨[], 0, 0⟩

/-- QMap::contains. -/
def mapContains (m : List (Str × WorkerProcess)) (k : Str) : Bool :=
  m.any (fun e => decide (e.1 = k))

/-- QMap lookup: the worker process recorded under the key, if any. -/
def mapLookup (m : List (Str × WorkerProcess)) (k : Str) : Option WorkerProcess :=
  (m.find? (fun e => decide (e.1 = k))).map Prod.snd

/-- QMap insert-or-replace, the effect of m_serverProcesses[path] = process:
replaces the binding of the key when present, otherwise adds it. -/
def mapInsert : List (Str × WorkerProcess) → Str → WorkerProcess →
    List (Str × WorkerProcess)
  | [], k, v => [(k, v)]
  | e :: rest, k, v => if e.1 = k then (k, v) :: rest else e :: mapInsert rest k v

/-- QMap::remove: drops the binding of the key. -/
def mapRemove : List (Str × WorkerProcess) → Str → List (Str × WorkerProcess)
  | [], _ => []
  | e :: rest, k => if e.1 = k then mapRemove rest k else e :: mapRemove rest k

/-- QString comparison, lexicographic on character codes. -/
def strLt : Str → Str → Bool
  | [], [] => false
  | [], _ :: _ => true
  | _ :: _, [] => false
  | a :: as, b :: bs => if a < b then true else if b < a then false else strLt as bs

/-- QMap::firstKey: the smallest key of the map (QMap iterates in key
order). -/
def firstKey (m : List (Str × WorkerProcess)) : Str :=
  match m with
  | [] => []
  | e :: rest => rest.foldl (fun acc e2 => if strLt e2.1 acc then e2.1 else acc) e.1

/-- Modelled from the spec: the reserved environment variable name returned
by VeyonCore::sessionIdEnvironmentVariable(), whose definition is not part
of the excerpt; only its role as a fixed reserved name matters. -/
def sessionIdEnvironmentVariable : Str := str "VEYON_SESSION_ID"

/-- LinuxServiceCore::startServer: the session-added handler.  Modelled from
the spec where the excerpt lacks the callee: openSession allocates a fresh
logical session id (here the nextSessionId counter) and the launched
QProcess is identified by a fresh handle (the nextHandle counter). -/
def startServer (w : World) (st : CoreState) (sessionPath : Str) :
    CoreState × List Event :=
  let sessionDisplay := w.display sessionPath
  if sessionDisplay = [] then
    (st, [Event.queryDisplay sessionPath])
  else
    let sessionLeader := w.leader sessionPath
    let sessionEnvironment := getSessionEnvironment w.procTable sessionLeader
    if sessionEnvironment = [] then
      (st, [Event.queryDisplay sessionPath, Event.queryLeader sessionPath])
    else
      let seat := w.seatPath sessionPath
      if w.multiSession then
        let sessionId := st.nextSessionId
        let env2 := envInsert sessionEnvironment sessionIdEnvironmentVariable
          (numberStr sessionId)
        ({ serverProcesses :=
             mapInsert st.serverProcesses sessionPath ⟨st.nextHandle, env2⟩,
           nextHandle := st.nextHandle + 1, nextSessionId := sessionId + 1 },
         [Event.queryDisplay sessionPath, Event.queryLeader sessionPath,
          Event.querySeat sessionPath,
          Event.openSession sessionPath sessionDisplay seat sessionId,
          Event.launch st.nextHandle w.serverFilePath])
      else
        ({ serverProcesses :=
             mapInsert st.serverProcesses sessionPath
               ⟨st.nextHandle, sessionEnvironment⟩,
           nextHandle := st.nextHandle + 1, nextSessionId := st.nextSessionId },
         [Event.queryDisplay sessionPath, Event.queryLeader sessionPath,
          Event.querySeat sessionPath,
          Event.launch st.nextHandle w.serverFilePath])

/-- LinuxServiceCore::stopServer(const QString&): terminates the recorded
worker, in multi-session mode closes the registry session id read back from
the recorded process environment, and removes the map entry.  The C++
accesses m_serverProcesses[sessionPath] unconditionally; its callers only
invoke it for keys present in the map, so the absent case (a no-op here)
is never exercised. -/
def stopServerForSession (w : World) (st : CoreState) (sessionPath : Str) :
    CoreState × List Event :=
  match mapLookup st.serverProcesses sessionPath with
  | some process =>
    ({ st with serverProcesses := mapRemove st.serverProcesses sessionPath },
     Event.terminate process.handle ::
       (if w.multiSession then
          [Event.closeSession
            (toIntStr (envValue process.processEnvironment
              sessionIdEnvironmentVariable))]
        else []))
  | none => (st, [])

/-- LinuxServiceCore::stopServer(QString, QDBusObjectPath): the
session-removed handler; a no-op when the path has no map entry. -/
def stopServer (w : World) (st : CoreState) (sessionPath : Str) :
    CoreState × List Event :=
  if mapContains st.serverProcesses sessionPath then
    stopServerForSession w st sessionPath
  else
    (st, [])

/-- The while loop of LinuxServiceCore::stopAllServers, with fuel: while the
map is non-empty, stop the server of the first key. -/
def stopAllServersAux (w : World) : Nat → CoreState → CoreState × List Event
  | 0, st => (st, [])
  | fuel + 1, st =>
    if st.serverProcesses = [] then (st, [])
    else
      let r1 := stopServerForSession w st (firstKey st.serverProcesses)
      let r2 := stopAllServersAux w fuel r1.1
      (r2.1, r1.2 ++ r2.2)

/-- LinuxServiceCore::stopAllServers: each iteration removes one entry, so
the map size bounds the number of iterations. -/
def stopAllServers (w : World) (st : CoreState) : CoreState × List Event :=
  stopAllServersAux w st.serverProcesses.length st

/-- LinuxServiceCore::listSessions: the ListSessions reply decoded into
session paths; on an invalid reply the error is logged (qCritical) and the
empty list is returned. -/
def listSessions (reply : Option (List Str)) : List Str :=
  match reply with
  | some sessions => sessions
  | none => []

/-- The observable outcome of LinuxServiceCore::run. -/
structure RunResult where
  state : CoreState
  events : List Event
  processedSessions : List Str
  enteredEventLoop : Bool
deriving DecidableEq

/-- LinuxServiceCore::run: list the current sessions, process a synthetic
session-added event for each, then enter the event loop (unconditionally:
eventLoop.exec() follows the bootstrap on every path). -/
def run (w : World) (reply : Option (List Str)) : RunResult :=
  let sessions := listSessions reply
  let r := sessions.foldl (fun acc s =>
    let r1 := startServer w acc.1 s
    (r1.1, acc.2 ++ r1.2)) (initialState, [])
  ⟨r.1, r.2, sessions, true⟩

/-- A logind notification delivered to the service's slots. -/
inductive Notification where
  | sessionNew (sessionPath : Str)
  | sessionRemoved (sessionPath : Str)

/-- Dispatch of one notification to the connected slot. -/
def handleNotification (w : World) (st : CoreState) :
    Notification → CoreState × List Event
  | Notification.sessionNew p => startServer w st p
  | Notification.sessionRemoved p => stopServer w st p

/-- The service's state after a sequence of notifications from the initial
state. -/
def runNotifications (w : World) (st : CoreState) (ns : List Notification) :
    CoreState :=
  ns.foldl (fun s n => (handleNotification w s n).1) st

/-- Number of map entries recorded under a key. -/
def countKey (m : List (Str × WorkerProcess)) (k : Str) : Nat :=
  (m.filter (fun e => decide (e.1 = k))).length

/-- The process handles of the termination requests in an event trace. -/
def terminatedHandles (evs : List Event) : List Nat :=
  evs.filterMap (fun e => match e with
    | Event.terminate h => some h
    | _ => none)

/-- The spec's environment-merge test vector: leader pid 5, three processes
in table order. -/
def exampleProcTable : List ProcEntry :=
  [⟨10, 5, some [str "A=1"]⟩, ⟨11, 10, some [str "B=2"]⟩, ⟨12, 999, some [str "C=3"]⟩]

/-- Concrete world for witnesses: multi-session enabled, graphical display,
leader pid 7 whose child provides a one-variable environment. -/
def exampleWorld : World :=
  { display := fun _ => str "X", leader := fun _ => 7,
    seatPath := fun _ => str "/seat0",
    procTable := [⟨10, 7, some [str "HOME=/root"]⟩],
    multiSession := true,
    serverFilePath := str "/usr/bin/veyon-server" }

/-- Concrete world like exampleWorld but with multi-session disabled. -/
def exampleWorldSingle : World :=
  { exampleWorld with multiSession := false }

/-- Concrete world whose sessions report an empty display string. -/
def exampleWorldNoDisplay : World :=
  { exampleWorld with display := fun _ => [] }

/-- Concrete world with a graphical display but an empty process table, so
environment resolution yields the empty mapping. -/
def exampleWorldNoEnvironment : World :=
  { exampleWorld with procTable := [] }

/-- The state after one successful worker launch, used as a witness state
that already contains a live entry for /S1. -/
def exampleState1 : CoreState :=
  (startServer exampleWorldSingle initialState (str "/S1")).1

/-- A witness state with three live entries (paths /S1, /S2, /S3 with
handles 0, 1, 2). -/
def exampleState3 : CoreState :=
  (startServer exampleWorldSingle
    (startServer exampleWorldSingle
      (startServer exampleWorldSingle initialState (str "/S1")).1
      (str "/S2")).1
    (str "/S3")).1

theorem charToDigit_digitChar {d : Nat} (h : d < 10) :
    charToDigit (Nat.digitChar d) = d := by
  interval_cases d <;> rfl

/-- Decimal round trip: QString::toInt recovers the integer printed by
QString::number. -/
theorem toIntStr_numberStr (n : Nat) : toIntStr (numberStr n) = n := by
  unfold numberStr toIntStr
  by_cases h : n = 0
  · subst h; rfl
  · rw [if_neg h, List.map_reverse, List.reverse_reverse, List.map_map]
    have hmap : (Nat.digits 10 n).map (charToDigit ∘ Nat.digitChar) =
        (Nat.digits 10 n).map id := by
      refine List.map_congr_left (fun d hd => ?_)
      exact charToDigit_digitChar (Nat.digits_lt_base (by norm_num) hd)
    rw [hmap, List.map_id, Nat.ofDigits_digits]

/-- Splitting on the separator cuts exactly at the first occurrence. -/
theorem splitOn_first_eq (k v : Str) (h : '=' ∉ k) :
    (k ++ '=' :: v).splitOn '=' = k :: v.splitOn '=' := by
  simp only [List.splitOn]
  refine List.splitOnP_first _ k (fun x hx => ?_) '=' (by simp) v
  simp only [beq_iff_eq]
  intro hEq
  exact h (hEq ▸ hx)

theorem countKey_cons (e : Str × WorkerProcess) (m : List (Str × WorkerProcess))
    (p : Str) :
    countKey (e :: m) p = (if e.1 = p then 1 else 0) + countKey m p := by
  by_cases h : e.1 = p <;> simp [countKey, List.filter_cons, h, Nat.add_comm]

theorem mapLookup_cons (e : Str × WorkerProcess) (m : List (Str × WorkerProcess))
    (k : Str) :
    mapLookup (e :: m) k = if e.1 = k then some e.2 else mapLookup m k := by
  by_cases h : e.1 = k <;> simp [mapLookup, List.find?_cons, h]

theorem envValue_cons (e : Str × Str) (env : List (Str × Str)) (k : Str) :
    envValue (e :: env) k = if e.1 = k then e.2 else envValue env k := by
  by_cases h : e.1 = k <;> simp [envValue, List.find?_cons, h]

theorem countKey_mapInsert_ne (m : List (Str × WorkerProcess)) (k p : Str)
    (v : WorkerProcess) (h : p ≠ k) :
    countKey (mapInsert m k v) p = countKey m p := by
  induction m with
  | nil => simp [mapInsert, countKey, List.filter_cons, Ne.symm h]
  | cons e rest ih =>
    by_cases hek : e.1 = k
    · simp [mapInsert, hek, countKey_cons, Ne.symm h]
    · simp only [mapInsert, if_neg hek, countKey_cons, ih]

theorem countKey_mapInsert_self (m : List (Str × WorkerProcess)) (k : Str)
    (v : WorkerProcess) :
    countKey (mapInsert m k v) k = max (countKey m k) 1 := by
  induction m with
  | nil => simp [mapInsert, countKey, List.filter_cons]
  | cons e rest ih =>
    by_cases hek : e.1 = k
    · simp only [mapInsert, if_pos hek, countKey_cons, hek, if_pos]
      omega
    · simp only [mapInsert, if_neg hek, countKey_cons, ih, if_neg hek]
      omega

theorem countKey_mapRemove_self (m : List (Str × WorkerProcess)) (k : Str) :
    countKey (mapRemove m k) k = 0 := by
  induction m with
  | nil => rfl
  | cons e rest ih =>
    by_cases hek : e.1 = k
    · simpa only [mapRemove, if_pos hek] using ih
    · simp only [mapRemove, if_neg hek, countKey_cons, ih, if_neg hek]

theorem countKey_mapRemove_ne (m : List (Str × WorkerProcess)) (k p : Str)
    (h : p ≠ k) : countKey (mapRemove m k) p = countKey m p := by
  induction m with
  | nil => rfl
  | cons e rest ih =>
    by_cases hek : e.1 = k
    · have hep : ¬ (e.1 = p) := fun hp => h (hp.symm.trans hek)
      simp only [mapRemove, if_pos hek, countKey_cons, if_neg hep, ih]
      omega
    · simp only [mapRemove, if_neg hek, countKey_cons, ih]

theorem mapLookup_mapInsert_self (m : List (Str × WorkerProcess)) (k : Str)
    (v : WorkerProcess) : mapLookup (mapInsert m k v) k = some v := by
  induction m with
  | nil => simp [mapInsert, mapLookup, List.find?]
  | cons e rest ih =>
    by_cases hek : e.1 = k
    · simp [mapInsert, hek, mapLookup_cons]
    · simp only [mapInsert, if_neg hek, mapLookup_cons, if_neg hek, ih]

theorem mapContains_of_lookup {m : List (Str × WorkerProcess)} {k : Str}
    {wp : WorkerProcess} (h : mapLookup m k = some wp) :
    mapContains m k = true := by
  unfold mapLookup at h
  cases hf : m.find? (fun e => decide (e.1 = k)) with
  | none => rw [hf] at h; simp at h
  | some e =>
    have hm := List.mem_of_find?_eq_some hf
    have hp := List.find?_some hf
    unfold mapContains
    rw [List.any_eq_true]
    exact ⟨e, hm, hp⟩

theorem countKey_pos_of_lookup {m : List (Str × WorkerProcess)} {k : Str}
    {wp : WorkerProcess} (h : mapLookup m k = some wp) :
    1 ≤ countKey m k := by
  unfold mapLookup at h
  cases hf : m.find? (fun e => decide (e.1 = k)) with
  | none => rw [hf] at h; simp at h
  | some e =>
    have hm := List.mem_of_find?_eq_some hf
    have hp := List.find?_some hf
    have hmem : e ∈ m.filter (fun e => decide (e.1 = k)) :=
      List.mem_filter.mpr ⟨hm, hp⟩
    exact List.length_pos.mpr (List.ne_nil_of_mem hmem)

theorem envValue_envInsert_self (env : List (Str × Str)) (k v : Str) :
    envValue (envInsert env k v) k = v := by
  induction env with
  | nil => simp [envInsert, envValue, List.find?]
  | cons e rest ih =>
    by_cases hek : e.1 = k
    · simp [envInsert, hek, envValue_cons]
    · simp only [envInsert, if_neg hek, envValue_cons, if_neg hek, ih]

/-- C1, counterexample: when the ListSessions reply is an error, run does
enter the event loop, contradicting the claim that startup is aborted
before the event loop. -/
theorem claim1_listing_failure_counterexample :
    ¬ ((run exampleWorld none).enteredEventLoop = false) := by decide

/-- C1, amended: if the bootstrap enumeration of sessions fails, the error
is logged and listSessions returns the empty list; no session is processed
in that run and the state stays initial, but startup is not aborted: run
proceeds into the event loop. -/
theorem claim1_listing_failure_nonfatal (w : World) :
    run w none = ⟨initialState, [], [], true⟩ := rfl

/-- C2: for a session whose queried display property is the empty string,
the session-added handler returns with the map (and whole state) unchanged,
having performed no query beyond the display query and no launch. -/
theorem claim2_empty_display_ignored (w : World) (st : CoreState) (p : Str)
    (h : w.display p = []) :
    startServer w st p = (st, [Event.queryDisplay p]) := by
  simp [startServer, h]

theorem claim2_empty_display_ignored_witness :
    exampleWorldNoDisplay.display (str "/S1") = [] ∧
    startServer exampleWorldNoDisplay initialState (str "/S1") =
      (initialState, [Event.queryDisplay (str "/S1")]) :=
  ⟨rfl, claim2_empty_display_ignored exampleWorldNoDisplay initialState (str "/S1") rfl⟩

/-- C3: for a session whose resolved environment mapping is empty, the
session-added handler stops after the display and leader queries: no
WorkerProcess entry is created, no worker is launched, and the state is
unchanged. -/
theorem claim3_empty_environment_ignored (w : World) (st : CoreState) (p : Str)
    (h1 : w.display p ≠ [])
    (h2 : getSessionEnvironment w.procTable (w.leader p) = []) :
    startServer w st p = (st, [Event.queryDisplay p, Event.queryLeader p]) := by
  simp [startServer, h1, h2]

theorem claim3_empty_environment_ignored_witness :
    exampleWorldNoEnvironment.display (str "/S1") ≠ [] ∧
    getSessionEnvironment exampleWorldNoEnvironment.procTable
      (exampleWorldNoEnvironment.leader (str "/S1")) = [] ∧
    startServer exampleWorldNoEnvironment initialState (str "/S1") =
      (initialState,
       [Event.queryDisplay (str "/S1"), Event.queryLeader (str "/S1")]) :=
  ⟨by decide, rfl,
   claim3_empty_environment_ignored exampleWorldNoEnvironment initialState (str "/S1")
     (by decide) rfl⟩

/-- C4: environment resolution is a single forward pass with a growing root
set: on the spec's test vector it returns exactly A=1 and B=2 (pid 12
excluded), and in general appending a process to the scanned table changes
nothing when its environment block is null or its parent is neither the
leader nor in the root set accumulated so far, while a process whose parent
qualifies and whose block is non-null has its variables merged and its own
pid appended to the root set. -/
theorem claim4_single_pass_merge :
    getSessionEnvironment exampleProcTable 5 =
      [(str "A", str "1"), (str "B", str "2")] ∧
    (∀ (table : List ProcEntry) (leader : Int) (p : ProcEntry),
      p.environ = none →
      envScan (table ++ [p]) leader = envScan table leader) ∧
    (∀ (table : List ProcEntry) (leader : Int) (p : ProcEntry) (block : List Str),
      p.environ = some block →
      ¬ (p.ppid = leader ∨ p.ppid ∈ (envScan table leader).2) →
      envScan (table ++ [p]) leader = envScan table leader) ∧
    (∀ (table : List ProcEntry) (leader : Int) (p : ProcEntry) (block : List Str),
      p.environ = some block →
      (p.ppid = leader ∨ p.ppid ∈ (envScan table leader).2) →
      envScan (table ++ [p]) leader =
        (mergeEnvironBlock (envScan table leader).1 block,
         (envScan table leader).2 ++ [p.tid])) := by
  refine ⟨by decide, ?_, ?_, ?_⟩
  · intro table leader p hp
    simp [envScan, List.foldl_append, envScanStep, hp]
  · intro table leader p block hp hcond
    unfold envScan at hcond ⊢
    rw [List.foldl_append, List.foldl_cons, List.foldl_nil]
    simp only [envScanStep, hp]
    rw [if_neg hcond]
  · intro table leader p block hp hcond
    unfold envScan at hcond ⊢
    rw [List.foldl_append, List.foldl_cons, List.foldl_nil]
    simp only [envScanStep, hp]
    rw [if_pos hcond]

theorem claim4_single_pass_merge_witness :
    envScan (exampleProcTable ++ [⟨13, 999, none⟩]) 5 = envScan exampleProcTable 5 ∧
    envScan (exampleProcTable ++ [⟨13, 1000, some [str "D=4"]⟩]) 5 =
      envScan exampleProcTable 5 ∧
    envScan (exampleProcTable ++ [⟨13, 10, some [str "D=4"]⟩]) 5 =
      (mergeEnvironBlock (envScan exampleProcTable 5).1 [str "D=4"],
       (envScan exampleProcTable 5).2 ++ [13]) :=
  ⟨claim4_single_pass_merge.2.1 exampleProcTable 5 ⟨13, 999, none⟩ rfl,
   claim4_single_pass_merge.2.2.1 exampleProcTable 5 ⟨13, 1000, some [str "D=4"]⟩
     [str "D=4"] rfl (by decide),
   claim4_single_pass_merge.2.2.2 exampleProcTable 5 ⟨13, 10, some [str "D=4"]⟩
     [str "D=4"] rfl (by decide)⟩

/-- C5: a raw environment entry is split on the first separator only: for a
key containing no separator, the key is everything before the first
separator and the value everything after it, further separators
preserved. -/
theorem claim5_split_on_first_separator (k v : Str) (h : '=' ∉ k) :
    parseEntry (k ++ '=' :: v) = (k, v) := by
  unfold parseEntry
  rw [splitOn_first_eq k v h]
  simp [List.intercalate_splitOn]

theorem claim5_split_on_first_separator_witness :
    parseEntry (str "FOO" ++ '=' :: str "bar=baz") = (str "FOO", str "bar=baz") :=
  claim5_split_on_first_separator (str "FOO") (str "bar=baz") (by decide)

theorem startServer_multi (w : World) (st : CoreState) (p : Str)
    (hm : w.multiSession = true) (h1 : w.display p ≠ [])
    (h2 : getSessionEnvironment w.procTable (w.leader p) ≠ []) :
    startServer w st p =
      ({ serverProcesses := mapInsert st.serverProcesses p
           ⟨st.nextHandle,
            envInsert (getSessionEnvironment w.procTable (w.leader p))
              sessionIdEnvironmentVariable (numberStr st.nextSessionId)⟩,
         nextHandle := st.nextHandle + 1,
         nextSessionId := st.nextSessionId + 1 },
       [Event.queryDisplay p, Event.queryLeader p, Event.querySeat p,
        Event.openSession p (w.display p) (w.seatPath p) st.nextSessionId,
        Event.launch st.nextHandle w.serverFilePath]) := by
  simp [startServer, h1, h2, hm]

theorem startServer_single (w : World) (st : CoreState) (p : Str)
    (hm : w.multiSession = false) (h1 : w.display p ≠ [])
    (h2 : getSessionEnvironment w.procTable (w.leader p) ≠ []) :
    startServer w st p =
      ({ serverProcesses := mapInsert st.serverProcesses p
           ⟨st.nextHandle, getSessionEnvironment w.procTable (w.leader p)⟩,
         nextHandle := st.nextHandle + 1,
         nextSessionId := st.nextSessionId },
       [Event.queryDisplay p, Event.queryLeader p, Event.querySeat p,
        Event.launch st.nextHandle w.serverFilePath]) := by
  simp [startServer, h1, h2, hm]

theorem startServer_map_cases (w : World) (st : CoreState) (p : Str) :
    (startServer w st p).1.serverProcesses = st.serverProcesses ∨
    ∃ wp, (startServer w st p).1.serverProcesses =
      mapInsert st.serverProcesses p wp := by
  by_cases h1 : w.display p = []
  · left; simp [startServer, h1]
  · by_cases h2 : getSessionEnvironment w.procTable (w.leader p) = []
    · left; simp [startServer, h1, h2]
    · by_cases hm : w.multiSession = true
      · right; exact ⟨_, by rw [startServer_multi w st p hm h1 h2]⟩
      · right
        exact ⟨_, by rw [startServer_single w st p (by simpa using hm) h1 h2]⟩

/-- C9: a session-removed notification whose path has no map entry is a
no-op: the state is unchanged and no event, in particular no termination
request, is issued. -/
theorem claim9_unknown_removal_noop (w : World) (st : CoreState) (p : Str)
    (h : mapContains st.serverProcesses p = false) :
    stopServer w st p = (st, []) := by
  simp [stopServer, h]

theorem claim9_unknown_removal_noop_witness :
    mapContains initialState.serverProcesses (str "/S9") = false ∧
    stopServer exampleWorld initialState (str "/S9") = (initialState, []) :=
  ⟨rfl, claim9_unknown_removal_noop exampleWorld initialState (str "/S9") rfl⟩

/-- C6: in multi-session mode, for an eligible session the recorded worker
environment binds the reserved session-id variable to the decimal string of
the id returned by the registry open call (the freshly allocated
nextSessionId), and processing the matching session-removed event issues a
registry close call carrying exactly that integer id, read back from the
recorded environment. -/
theorem claim6_session_id_round_trip (w : World) (st : CoreState) (p : Str)
    (hm : w.multiSession = true)
    (h1 : w.display p ≠ [])
    (h2 : getSessionEnvironment w.procTable (w.leader p) ≠ []) :
    mapLookup (startServer w st p).1.serverProcesses p =
      some ⟨st.nextHandle,
        envInsert (getSessionEnvironment w.procTable (w.leader p))
          sessionIdEnvironmentVariable (numberStr st.nextSessionId)⟩ ∧
    envValue
      (envInsert (getSessionEnvironment w.procTable (w.leader p))
        sessionIdEnvironmentVariable (numberStr st.nextSessionId))
      sessionIdEnvironmentVariable = numberStr st.nextSessionId ∧
    Event.openSession p (w.display p) (w.seatPath p) st.nextSessionId ∈
      (startServer w st p).2 ∧
    (stopServer w (startServer w st p).1 p).2 =
      [Event.terminate st.nextHandle, Event.closeSession st.nextSessionId] := by
  rw [startServer_multi w st p hm h1 h2]
  have hlook := mapLookup_mapInsert_self st.serverProcesses p
    ⟨st.nextHandle,
     envInsert (getSessionEnvironment w.procTable (w.leader p))
       sessionIdEnvironmentVariable (numberStr st.nextSessionId)⟩
  refine ⟨hlook, envValue_envInsert_self _ _ _, by simp, ?_⟩
  simp [stopServer, mapContains_of_lookup hlook, stopServerForSession, hlook, hm,
    envValue_envInsert_self, toIntStr_numberStr]

theorem claim6_session_id_round_trip_witness :
    mapLookup (startServer exampleWorld initialState (str "/S1")).1.serverProcesses
      (str "/S1") =
      some ⟨initialState.nextHandle,
        envInsert
          (getSessionEnvironment exampleWorld.procTable
            (exampleWorld.leader (str "/S1")))
          sessionIdEnvironmentVariable (numberStr initialState.nextSessionId)⟩ ∧
    envValue
      (envInsert
        (getSessionEnvironment exampleWorld.procTable
          (exampleWorld.leader (str "/S1")))
        sessionIdEnvironmentVariable (numberStr initialState.nextSessionId))
      sessionIdEnvironmentVariable = numberStr initialState.nextSessionId ∧
    Event.openSession (str "/S1") (exampleWorld.display (str "/S1"))
      (exampleWorld.seatPath (str "/S1")) initialState.nextSessionId ∈
      (startServer exampleWorld initialState (str "/S1")).2 ∧
    (stopServer exampleWorld
      (startServer exampleWorld initialState (str "/S1")).1 (str "/S1")).2 =
      [Event.terminate initialState.nextHandle,
       Event.closeSession initialState.nextSessionId] :=
  claim6_session_id_round_trip exampleWorld initialState (str "/S1") rfl
    (by decide) (by decide)

/-- C10: a session-added event for an eligible path that already has a map
entry replaces that entry with a newly launched process (fresh handle,
freshly built environment); no termination request is issued for the
previously recorded process, whose handle is simply dropped from the
supervisor state. -/
theorem claim10_duplicate_added_replaces (w : World) (st : CoreState) (p : Str)
    (wp : WorkerProcess) (hmem : mapLookup st.serverProcesses p = some wp)
    (h1 : w.display p ≠ [])
    (h2 : getSessionEnvironment w.procTable (w.leader p) ≠ []) :
    mapLookup (startServer w st p).1.serverProcesses p =
      some ⟨st.nextHandle,
        if w.multiSession then
          envInsert (getSessionEnvironment w.procTable (w.leader p))
            sessionIdEnvironmentVariable (numberStr st.nextSessionId)
        else getSessionEnvironment w.procTable (w.leader p)⟩ ∧
    (∀ q, Event.terminate q ∉ (startServer w st p).2) ∧
    countKey (startServer w st p).1.serverProcesses p =
      countKey st.serverProcesses p := by
  have hpos := countKey_pos_of_lookup hmem
  by_cases hm : w.multiSession = true
  · rw [startServer_multi w st p hm h1 h2]
    refine ⟨by simp [hm, mapLookup_mapInsert_self], by simp, ?_⟩
    simp only [countKey_mapInsert_self]
    exact max_eq_left hpos
  · have hm' : w.multiSession = false := by simpa using hm
    rw [startServer_single w st p hm' h1 h2]
    refine ⟨by simp [hm', mapLookup_mapInsert_self], by simp, ?_⟩
    simp only [countKey_mapInsert_self]
    exact max_eq_left hpos

theorem claim10_duplicate_added_replaces_witness :
    mapLookup exampleState1.serverProcesses (str "/S1") =
      some ⟨0, [(str "HOME", str "/root")]⟩ ∧
    mapLookup (startServer exampleWorldSingle exampleState1 (str "/S1")).1.serverProcesses
      (str "/S1") =
      some ⟨exampleState1.nextHandle,
        if exampleWorldSingle.multiSession then
          envInsert
            (getSessionEnvironment exampleWorldSingle.procTable
              (exampleWorldSingle.leader (str "/S1")))
            sessionIdEnvironmentVariable (numberStr exampleState1.nextSessionId)
        else getSessionEnvironment exampleWorldSingle.procTable
          (exampleWorldSingle.leader (str "/S1"))⟩ ∧
    (∀ q, Event.terminate q ∉ (startServer exampleWorldSingle exampleState1 (str "/S1")).2) ∧
    countKey (startServer exampleWorldSingle exampleState1 (str "/S1")).1.serverProcesses
      (str "/S1") = countKey exampleState1.serverProcesses (str "/S1") :=
  ⟨by decide,
   claim10_duplicate_added_replaces exampleWorldSingle exampleState1 (str "/S1")
     ⟨0, [(str "HOME", str "/root")]⟩ (by decide) (by decide) (by decide)⟩

theorem countKey_le_one_startServer (w : World) (st : CoreState) (p : Str)
    (h : ∀ q, countKey st.serverProcesses q ≤ 1) :
    ∀ q, countKey (startServer w st p).1.serverProcesses q ≤ 1 := by
  intro q
  rcases startServer_map_cases w st p with hc | ⟨wp, hc⟩
  · rw [hc]; exact h q
  · rw [hc]
    by_cases hq : q = p
    · subst hq
      rw [countKey_mapInsert_self]
      exact max_le (h q) le_rfl
    · rw [countKey_mapInsert_ne _ _ _ _ hq]
      exact h q

theorem countKey_le_one_stopServer (w : World) (st : CoreState) (p : Str)
    (h : ∀ q, countKey st.serverProcesses q ≤ 1) :
    ∀ q, countKey (stopServer w st p).1.serverProcesses q ≤ 1 := by
  intro q
  unfold stopServer
  by_cases hc : mapContains st.serverProcesses p = true
  · rw [if_pos hc]
    unfold stopServerForSession
    cases hl : mapLookup st.serverProcesses p with
    | none => simp only [hl]; exact h q
    | some wp =>
      simp only [hl]
      by_cases hq : q = p
      · subst hq
        simpa only [countKey_mapRemove_self] using Nat.zero_le 1
      · rw [countKey_mapRemove_ne _ _ _ hq]
        exact h q
  · rw [if_neg hc]
    exact h q

/-- C7: starting from the empty map, after any sequence of session-added
and session-removed notifications the map holds at most one WorkerProcess
entry per session path, including under repeated session-added
notifications for the same path. -/
theorem claim7_at_most_one_entry_per_path (w : World) (ns : List Notification)
    (p : Str) :
    countKey ((runNotifications w initialState ns).serverProcesses) p ≤ 1 := by
  suffices h : ∀ st : CoreState, (∀ q, countKey st.serverProcesses q ≤ 1) →
      ∀ q, countKey ((runNotifications w st ns).serverProcesses) q ≤ 1 by
    exact h initialState (fun q => by simp [initialState, countKey]) p
  induction ns with
  | nil => intro st h q; exact h q
  | cons n rest ih =>
    intro st h q
    unfold runNotifications
    rw [List.foldl_cons]
    cases n with
    | sessionNew sp =>
      exact ih _ (countKey_le_one_startServer w st sp h) q
    | sessionRemoved sp =>
      exact ih _ (countKey_le_one_stopServer w st sp h) q

theorem foldlMinKey_mem (l : List (Str × WorkerProcess)) (a : Str) :
    l.foldl (fun acc e2 => if strLt e2.1 acc then e2.1 else acc) a = a ∨
    l.foldl (fun acc e2 => if strLt e2.1 acc then e2.1 else acc) a ∈
      l.map Prod.fst := by
  induction l generalizing a with
  | nil => left; rfl
  | cons e rest ih =>
    rw [List.foldl_cons]
    rcases ih (if strLt e.1 a then e.1 else a) with h | h
    · rw [h]
      by_cases hc : strLt e.1 a = true
      · right
        rw [if_pos hc, List.map_cons]
        exact List.mem_cons_self _ _
      · left
        rw [if_neg hc]
    · right
      rw [List.map_cons]
      exact List.mem_cons_of_mem _ h

theorem firstKey_mem {m : List (Str × WorkerProcess)} (h : m ≠ []) :
    firstKey m ∈ m.map Prod.fst := by
  match m with
  | [] => exact absurd rfl h
  | e :: rest =>
    have hfk : firstKey (e :: rest) =
        rest.foldl (fun acc e2 => if strLt e2.1 acc then e2.1 else acc) e.1 := rfl
    rw [hfk]
    rcases foldlMinKey_mem rest e.1 with h1 | h1
    · rw [h1, List.map_cons]
      exact List.mem_cons_self _ _
    · rw [List.map_cons]
      exact List.mem_cons_of_mem _ h1

theorem lookup_isSome_of_key_mem {m : List (Str × WorkerProcess)} {k : Str}
    (h : k ∈ m.map Prod.fst) : ∃ wp, mapLookup m k = some wp := by
  induction m with
  | nil => simp at h
  | cons e rest ih =>
    by_cases hek : e.1 = k
    · exact ⟨e.2, by rw [mapLookup_cons, if_pos hek]⟩
    · rw [List.map_cons, List.mem_cons] at h
      rcases h with h | h
      · exact absurd h.symm hek
      · obtain ⟨wp, hwp⟩ := ih h
        exact ⟨wp, by rw [mapLookup_cons, if_neg hek, hwp]⟩

theorem mapRemove_of_key_not_mem {m : List (Str × WorkerProcess)} {k : Str}
    (h : k ∉ m.map Prod.fst) : mapRemove m k = m := by
  induction m with
  | nil => rfl
  | cons e rest ih =>
    rw [List.map_cons, List.mem_cons, not_or] at h
    have hne : ¬ (e.1 = k) := fun he => h.1 he.symm
    simp only [mapRemove, if_neg hne, ih h.2]

theorem mapRemove_sublist (m : List (Str × WorkerProcess)) (k : Str) :
    List.Sublist (mapRemove m k) m := by
  induction m with
  | nil => exact List.Sublist.refl _
  | cons e rest ih =>
    by_cases hek : e.1 = k
    · simp only [mapRemove, if_pos hek]
      exact ih.cons _
    · simp only [mapRemove, if_neg hek]
      exact ih.cons₂ _

theorem nodup_keys_mapRemove {m : List (Str × WorkerProcess)} (k : Str)
    (hnd : (m.map Prod.fst).Nodup) : ((mapRemove m k).map Prod.fst).Nodup :=
  List.Nodup.sublist ((mapRemove_sublist m k).map Prod.fst) hnd

theorem perm_cons_mapRemove {m : List (Str × WorkerProcess)} {k : Str}
    {wp : WorkerProcess} (hnd : (m.map Prod.fst).Nodup)
    (h : mapLookup m k = some wp) :
    m.Perm ((k, wp) :: mapRemove m k) := by
  induction m with
  | nil => simp [mapLookup] at h
  | cons e rest ih =>
    obtain ⟨e1, e2⟩ := e
    rw [mapLookup_cons] at h
    simp only [List.map_cons, List.nodup_cons] at hnd
    by_cases hek : e1 = k
    · rw [if_pos hek] at h
      injection h with h2
      subst hek
      subst h2
      have hrest : mapRemove rest e1 = rest :=
        mapRemove_of_key_not_mem hnd.1
      simp only [mapRemove, if_pos rfl, hrest]
      exact List.Perm.refl _
    · rw [if_neg hek] at h
      have hperm := ih hnd.2 h
      simp only [mapRemove, if_neg hek]
      exact (hperm.cons (e1, e2)).trans
        (List.Perm.swap (k, wp) (e1, e2) (mapRemove rest k))

theorem terminatedHandles_append (l1 l2 : List Event) :
    terminatedHandles (l1 ++ l2) =
      terminatedHandles l1 ++ terminatedHandles l2 := by
  simp [terminatedHandles]

theorem terminatedHandles_stopEvents (b : Bool) (h x : Nat) :
    terminatedHandles
      (Event.terminate h :: (if b then [Event.closeSession x] else [])) = [h] := by
  cases b <;> simp [terminatedHandles]

theorem stopAllServersAux_spec (w : World) (fuel : Nat) :
    ∀ st : CoreState, (st.serverProcesses.map Prod.fst).Nodup →
      st.serverProcesses.length ≤ fuel →
      (stopAllServersAux w fuel st).1.serverProcesses = [] ∧
      (terminatedHandles (stopAllServersAux w fuel st).2).Perm
        (st.serverProcesses.map (fun e => e.2.handle)) := by
  induction fuel with
  | zero =>
    intro st hnd hlen
    have hm : st.serverProcesses = [] :=
      List.eq_nil_of_length_eq_zero (Nat.le_zero.mp hlen)
    simp [stopAllServersAux, hm, terminatedHandles]
  | succ fuel ih =>
    intro st hnd hlen
    by_cases hemp : st.serverProcesses = []
    · simp [stopAllServersAux, hemp, terminatedHandles]
    · have hk := firstKey_mem hemp
      obtain ⟨wp, hwp⟩ := lookup_isSome_of_key_mem hk
      have hperm := perm_cons_mapRemove hnd hwp
      have hstop : stopServerForSession w st (firstKey st.serverProcesses) =
          ({ st with serverProcesses :=
               mapRemove st.serverProcesses (firstKey st.serverProcesses) },
           Event.terminate wp.handle ::
             (if w.multiSession then
                [Event.closeSession
                  (toIntStr (envValue wp.processEnvironment
                    sessionIdEnvironmentVariable))]
              else [])) := by
        simp [stopServerForSession, hwp]
      have hlen' :
          (mapRemove st.serverProcesses (firstKey st.serverProcesses)).length ≤
            fuel := by
        have hl := hperm.length_eq
        simp only [List.length_cons] at hl
        omega
      have hnd' := nodup_keys_mapRemove (firstKey st.serverProcesses) hnd
      obtain ⟨ih1, ih2⟩ := ih
        { st with serverProcesses :=
            mapRemove st.serverProcesses (firstKey st.serverProcesses) }
        hnd' hlen'
      simp only [stopAllServersAux, if_neg hemp, hstop]
      refine ⟨ih1, ?_⟩
      rw [terminatedHandles_append, terminatedHandles_stopEvents]
      refine List.Perm.trans (List.Perm.cons wp.handle ih2) ?_
      exact (hperm.map (fun e => e.2.handle)).symm

/-- C8: shutdown repeatedly tears down the entry of the first key while the
map is non-empty: from any state with distinct session paths the map ends
empty, the multiset of termination requests equals the multiset of recorded
process handles, and (when handles are distinct) each recorded worker
receives exactly one termination request. -/
theorem claim8_shutdown_drains (w : World) (st : CoreState)
    (hnd : (st.serverProcesses.map Prod.fst).Nodup) :
    (stopAllServers w st).1.serverProcesses = [] ∧
    (terminatedHandles (stopAllServers w st).2).Perm
      (st.serverProcesses.map (fun e => e.2.handle)) ∧
    ((st.serverProcesses.map (fun e => e.2.handle)).Nodup →
      ∀ e ∈ st.serverProcesses,
        (terminatedHandles (stopAllServers w st).2).count e.2.handle = 1) := by
  unfold stopAllServers
  obtain ⟨h1, h2⟩ :=
    stopAllServersAux_spec w st.serverProcesses.length st hnd le_rfl
  refine ⟨h1, h2, fun hh e he => ?_⟩
  rw [h2.count_eq]
  exact List.count_eq_one_of_mem hh (List.mem_map_of_mem _ he)

theorem claim8_shutdown_drains_witness :
    (exampleState3.serverProcesses.map Prod.fst).Nodup ∧
    ((stopAllServers exampleWorldSingle exampleState3).1.serverProcesses = [] ∧
     (terminatedHandles (stopAllServers exampleWorldSingle exampleState3).2).Perm
       (exampleState3.serverProcesses.map (fun e => e.2.handle)) ∧
     ((exampleState3.serverProcesses.map (fun e => e.2.handle)).Nodup →
       ∀ e ∈ exampleState3.serverProcesses,
         (terminatedHandles
           (stopAllServers exampleWorldSingle exampleState3).2).count
           e.2.handle = 1)) :=
  ⟨by decide, claim8_shutdown_drains exampleWorldSingle exampleState3 (by decide)⟩

end Veyon
